import Mathlib

/-!
# MegaMemory — verification of the graph storage and query engine

A shallow embedding of the MegaMemory knowledge-graph server (TypeScript)
into Lean 4, together with theorems settling the frozen claims about its
specification.

Modelling conventions:
* SQLite tables are lists of records (`NodeRow`, `EdgeRow`), in insertion
  order; a `SELECT ... WHERE id = ?` on the primary key is `List.find?`.
* Nullable TEXT columns are `Option String`; `needs_merge INTEGER` is `Nat`
  (0/1), exactly as the row types in `types.ts` describe them.
* `file_refs` is stored in the database as a JSON-encoded string and is
  always written via `JSON.stringify` of a string array and compared via
  `JSON.parse`-then-restringify, so it is modelled as the parsed value
  `Option (List String)`.
* `embedding` is a BLOB of float32s.  Vector contents are modelled as
  `List ℚ` (floats treated as exact numbers); the similarity value
  `dot/(√‖a‖·√‖b‖)` is represented by the order-isomorphic rational
  `sign(dot)·dot²/(‖a‖²·‖b‖²)` because the square root of a rational is
  irrational in general.  Every claim below depends only on the ordering,
  the sign and the zero of similarities, which this encoding preserves.
* `datetime('now')` is a `now : String` argument threaded into each
  mutating operation.
* The embedding provider (`embed`) is an external black box per the spec,
  modelled as an explicit function argument `embedFn : String → List ℚ`.
* The monotonically assigned numeric edge id (AUTOINCREMENT) is not
  modelled; no claim refers to it.
-/

namespace MegaMemory

/-- A row of the `nodes` table (`NodeRow` in `types.ts`). -/
structure NodeRow where
  id : String
  name : String
  kind : String
  summary : String
  why : Option String
  file_refs : Option (List String)
  parent_id : Option String
  created_by_task : Option String
  created_at : String
  updated_at : String
  removed_at : Option String
  removed_reason : Option String
  embedding : Option (List ℚ)
  merge_group : Option String
  needs_merge : Nat
  source_branch : Option String
  merge_timestamp : Option String
  deriving Repr, DecidableEq

/-- A row of the `edges` table (`EdgeRow` in `types.ts`), without the
AUTOINCREMENT numeric id. -/
structure EdgeRow where
  from_id : String
  to_id : String
  relation : String
  description : Option String
  created_at : Option String
  merge_group : Option String
  needs_merge : Nat
  source_branch : Option String
  merge_timestamp : Option String
  deriving Repr, DecidableEq

deriving instance DecidableEq for Except

/-- The persistent store: the two tables of `db.ts`. -/
structure Store where
  nodes : List NodeRow
  edges : List EdgeRow
  deriving Repr, DecidableEq

/-! ## ID slugifier (`makeId` in `tools.ts`) -/

/-- A character matched by the JavaScript regex class `[_\s]` (underscore or
whitespace; the ASCII whitespace characters). -/
def isSepChar (c : Char) : Bool :=
  c == '_' || c == ' ' || c == '\t' || c == '\n' || c == '\r' ||
  c == '\x0b' || c == '\x0c'

/-- A character kept by the regex replace that drops `[^a-z0-9-]`. -/
def isSlugChar (c : Char) : Bool :=
  ('a' ≤ c && c ≤ 'z') || ('0' ≤ c && c ≤ '9') || c == '-'

/-- Model of `replace(/[_\s]+/g, "-")`: each maximal run of separators becomes one
hyphen.  `inRun` records whether the previous character was a separator. -/
def replaceSepRunsAux : Bool → List Char → List Char
  | _, [] => []
  | inRun, c :: rest =>
    if isSepChar c then
      if inRun then replaceSepRunsAux true rest
      else '-' :: replaceSepRunsAux true rest
    else c :: replaceSepRunsAux false rest

/-- The replace of regex `-+` (global) with `-`: collapse runs of hyphens
to a single hyphen. -/
def collapseDashAux : Bool → List Char → List Char
  | _, [] => []
  | prevDash, c :: rest =>
    if c == '-' then
      if prevDash then collapseDashAux true rest
      else '-' :: collapseDashAux true rest
    else c :: collapseDashAux false rest

/-- Model of `replace(/^-|-$/g, "")`: drop one leading and one trailing hyphen.
(After collapsing, at most one hyphen can sit at each end.) -/
def trimDashes (l : List Char) : List Char :=
  let l1 := match l with
    | '-' :: rest => rest
    | other => other
  match l1.reverse with
  | '-' :: rest => rest.reverse
  | _ => l1

/-- Model of `makeId` from `tools.ts`: lowercase, separator runs to `-`, drop
non-`[a-z0-9-]`, collapse `-` runs, trim `-` at the ends, then prefix the
parent id when given. -/
def makeId (name : String) (parentId : Option String := none) : String :=
  let lowered := name.toList.map Char.toLower
  let dashed := replaceSepRunsAux false lowered
  let stripped := dashed.filter isSlugChar
  let collapsed := collapseDashAux false stripped
  let normalized := String.mk (trimDashes collapsed)
  match parentId with
  | some p => p ++ "/" ++ normalized
  | none => normalized

example : makeId "MCP Server" = "mcp-server" := by decide
example : makeId "my_cool_feature" = "my-cool-feature" := by decide
example : makeId "Hello, World! (v2)" = "hello-world-v2" := by decide
example : makeId "foo---bar" = "foo-bar" := by decide
example : makeId "--leading-trailing--" = "leading-trailing" := by decide
example : makeId "Tool Registration" (some "mcp-server") = "mcp-server/tool-registration" := by decide
example : makeId "!!!" = "" := by decide

/-! ## Embeddings (`embeddings.ts`) -/

/-- Model of `embeddingText(name, kind, summary)`: the string handed to the model. -/
def embeddingText (name kind summary : String) : String :=
  kind ++ ": " ++ name ++ " — " ++ summary

/-- Dot product of two rational vectors (the summation loop runs over the
common length; the code only reaches it when the lengths are equal). -/
def dotProd : List ℚ → List ℚ → ℚ
  | [], _ => 0
  | _, [] => 0
  | a :: as, b :: bs => a * b + dotProd as bs

/-- Model of `cosineSimilarity(a, b)` from `embeddings.ts`.  Throws on a dimension
mismatch; returns 0 when either norm is 0; otherwise `dot/(√‖a‖²·√‖b‖²)`,
here encoded by the order-isomorphic rational `sign(dot)·dot²/(‖a‖²·‖b‖²)`
(see the header). -/
def cosineSimilarity (a b : List ℚ) : Except String ℚ :=
  if a.length ≠ b.length then
    .error ("Embedding dimension mismatch: " ++ toString a.length ++ " vs " ++
      toString b.length)
  else
    let dot := dotProd a b
    let normA := dotProd a a
    let normB := dotProd b b
    if normA * normB = 0 then .ok 0
    else if dot < 0 then .ok (-(dot * dot) / (normA * normB))
    else .ok (dot * dot / (normA * normB))

/-- The candidate shape taken by `findTopK` (id, name, kind, summary,
embedding; only id and embedding are read). -/
structure Candidate where
  id : String
  name : String
  kind : String
  summary : String
  embedding : Option (List ℚ)
  deriving Repr, DecidableEq

/-- Insert into a list that is sorted by descending similarity, keeping the
insertion stable (JavaScript `Array.prototype.sort` is stable). -/
def insertByDescSim (p : String × ℚ) : List (String × ℚ) → List (String × ℚ)
  | [] => [p]
  | q :: rest => if q.2 < p.2 then p :: q :: rest else q :: insertByDescSim p rest

/-- Stable sort by descending similarity (`.sort((a, b) => b.similarity -
a.similarity)`). -/
def sortByDescSim : List (String × ℚ) → List (String × ℚ)
  | [] => []
  | p :: rest => insertByDescSim p (sortByDescSim rest)

/-- Model of `findTopK(queryEmbedding, candidates, topK)` from `embeddings.ts`:
keep the candidates whose embedding is not null, score each against the
query (an exception from `cosineSimilarity` propagates), sort by descending
similarity and take the first `topK`. -/
def findTopK (queryEmbedding : List ℚ) (candidates : List Candidate)
    (topK : Nat) : Except String (List (String × ℚ)) := do
  let kept := candidates.filter (fun c => c.embedding ≠ none)
  let scored ← kept.mapM (fun c => do
    let s ← cosineSimilarity queryEmbedding (c.embedding.getD [])
    pure (c.id, s))
  pure ((sortByDescSim scored).take topK)

/-! ## Store operations (`db.ts`) -/

/-- Model of `getNode(id)`: `SELECT * FROM nodes WHERE id = ? AND removed_at IS NULL`. -/
def getNode (st : Store) (id : String) : Option NodeRow :=
  st.nodes.find? (fun n => n.id == id && n.removed_at == none)

/-- Model of `getNodeIncludingRemoved(id)`: `SELECT * FROM nodes WHERE id = ?`. -/
def getNodeIncludingRemoved (st : Store) (id : String) : Option NodeRow :=
  st.nodes.find? (fun n => n.id == id)

/-- Model of `nodeExists(id)`: `SELECT 1 FROM nodes WHERE id = ? AND removed_at IS
NULL` is non-empty. -/
def nodeExists (st : Store) (id : String) : Bool :=
  st.nodes.any (fun n => n.id == id && n.removed_at == none)

/-- Model of `insertNode(node)`: plain INSERT.  SQLite enforces the primary key on
`id` (a duplicate — live or removed — raises a UNIQUE constraint error) and,
with `foreign_keys = ON`, that a non-null `parent_id` references some row of
`nodes`.  `created_at`/`updated_at` take their `datetime('now')` defaults. -/
def insertNode (st : Store) (now : String)
    (id name kind summary : String) (why : Option String)
    (file_refs : Option (List String)) (parent_id : Option String)
    (created_by_task : Option String) (embedding : Option (List ℚ)) :
    Except String Store :=
  if st.nodes.any (fun n => n.id == id) then
    .error "UNIQUE constraint failed: nodes.id"
  else if (match parent_id with
    | some p => !(st.nodes.any (fun n => n.id == p))
    | none => false) then
    .error "FOREIGN KEY constraint failed"
  else
    .ok { st with nodes := st.nodes ++ [{
      id := id, name := name, kind := kind, summary := summary,
      why := why, file_refs := file_refs, parent_id := parent_id,
      created_by_task := created_by_task,
      created_at := now, updated_at := now,
      removed_at := none, removed_reason := none,
      embedding := embedding,
      merge_group := none, needs_merge := 0,
      source_branch := none, merge_timestamp := none }] }

/-- The patch accepted by `updateNode` (every field optional; an absent
field is not part of the UPDATE's SET list). -/
structure NodePatch where
  name : Option String := none
  kind : Option String := none
  summary : Option String := none
  why : Option String := none
  file_refs : Option (List String) := none
  embedding : Option (List ℚ) := none
  deriving Repr, DecidableEq

/-- Apply the defined fields of a patch to one row. -/
def applyPatch (p : NodePatch) (now : String) (n : NodeRow) : NodeRow :=
  { n with
    name := p.name.getD n.name
    kind := p.kind.getD n.kind
    summary := p.summary.getD n.summary
    why := match p.why with | some w => some w | none => n.why
    file_refs := match p.file_refs with | some r => some r | none => n.file_refs
    embedding := match p.embedding with | some e => some e | none => n.embedding
    updated_at := now }

/-- Model of `updateNode(id, changes)`: when no field is supplied, return `false`
without touching the store; otherwise `UPDATE ... WHERE id = ? AND
removed_at IS NULL` and report whether a row changed. -/
def updateNode (st : Store) (now : String) (id : String) (p : NodePatch) :
    Bool × Store :=
  if p.name == none && p.kind == none && p.summary == none &&
     p.why == none && p.file_refs == none && p.embedding == none then
    (false, st)
  else
    let hit := st.nodes.any (fun n => n.id == id && n.removed_at == none)
    (hit, { st with nodes := st.nodes.map (fun n =>
      if n.id == id && n.removed_at == none then applyPatch p now n else n) })

/-- Model of `softDeleteNode(id, reason)`: set `removed_at`/`removed_reason` on the
live row of that id, and — only when a row changed — hard-delete every edge
whose `from_id` or `to_id` is the id.  Children's `parent_id` is untouched. -/
def softDeleteNode (st : Store) (now : String) (id reason : String) :
    Bool × Store :=
  let changed := st.nodes.any (fun n => n.id == id && n.removed_at == none)
  let nodes' := st.nodes.map (fun n =>
    if n.id == id && n.removed_at == none then
      { n with removed_at := some now, removed_reason := some reason,
               updated_at := now }
    else n)
  let edges' := if changed then
      st.edges.filter (fun e => !(e.from_id == id || e.to_id == id))
    else st.edges
  (changed, { nodes := nodes', edges := edges' })

/-- Model of `insertEdge(edge)`: INSERT with the `datetime('now')` default for
`created_at`; with `foreign_keys = ON` both endpoints must exist in
`nodes` (live or removed). -/
def insertEdge (st : Store) (now : String)
    (from_id to_id relation : String) (description : Option String) :
    Except String Store :=
  if !(st.nodes.any (fun n => n.id == from_id)) ||
     !(st.nodes.any (fun n => n.id == to_id)) then
    .error "FOREIGN KEY constraint failed"
  else
    .ok { st with edges := st.edges ++ [{
      from_id := from_id, to_id := to_id, relation := relation,
      description := description, created_at := some now,
      merge_group := none, needs_merge := 0,
      source_branch := none, merge_timestamp := none }] }

/-- Whether an edge row matches the `(from_id, to_id, relation)` triple of a
`deleteEdge` call. -/
def edgeTripleMatches (f t r : String) (e : EdgeRow) : Bool :=
  e.from_id == f && e.to_id == t && e.relation == r

/-- Model of `deleteEdge(fromId, toId, relation)`: `DELETE FROM edges WHERE from_id =
? AND to_id = ? AND relation = ?`; reports whether any row was deleted. -/
def deleteEdge (st : Store) (f t r : String) : Bool × Store :=
  let changes := st.edges.countP (fun e => edgeTripleMatches f t r e)
  (decide (0 < changes),
   { st with edges := st.edges.filter (fun e => !(edgeTripleMatches f t r e)) })

/-- Model of `getNodesByMergeGroup(mergeGroup)`. -/
def getNodesByMergeGroup (st : Store) (g : String) : List NodeRow :=
  st.nodes.filter (fun n => n.merge_group == some g)

/-- Model of `clearNodeMergeFlags(id)`: clear the four merge columns and bump
`updated_at` on the rows of that id. -/
def clearNodeMergeFlags (st : Store) (now : String) (id : String) : Store :=
  { st with nodes := st.nodes.map (fun n =>
      if n.id == id then
        { n with merge_group := none, needs_merge := 0,
                 source_branch := none, merge_timestamp := none,
                 updated_at := now }
      else n) }

/-- Model of `clearEdgeMergeFlagsByGroup(mergeGroup)`. -/
def clearEdgeMergeFlagsByGroup (st : Store) (g : String) : Store :=
  { st with edges := st.edges.map (fun e =>
      if e.merge_group == some g then
        { e with merge_group := none, needs_merge := 0,
                 source_branch := none, merge_timestamp := none }
      else e) }

/-- Row transform of the first UPDATE of `renameNodeId` (`UPDATE nodes SET
id = @newId, updated_at = datetime('now') WHERE id = @oldId`). -/
def renameNodeRow (oldId newId now : String) (n : NodeRow) : NodeRow :=
  if n.id == oldId then { n with id := newId, updated_at := now } else n

/-- Row transform of the second UPDATE of `renameNodeId` (`UPDATE nodes SET
parent_id = @newId WHERE parent_id = @oldId`). -/
def renameParentRef (oldId newId : String) (n : NodeRow) : NodeRow :=
  if n.parent_id == some oldId then { n with parent_id := some newId } else n

/-- Row transform of the third UPDATE of `renameNodeId` (`UPDATE edges SET
from_id = @newId WHERE from_id = @oldId`). -/
def renameEdgeFrom (oldId newId : String) (e : EdgeRow) : EdgeRow :=
  if e.from_id == oldId then { e with from_id := newId } else e

/-- Row transform of the fourth UPDATE of `renameNodeId` (`UPDATE edges SET
to_id = @newId WHERE to_id = @oldId`). -/
def renameEdgeTo (oldId newId : String) (e : EdgeRow) : EdgeRow :=
  if e.to_id == oldId then { e with to_id := newId } else e

/-- Model of `renameNodeId(oldId, newId)`: inside one FK-disabled transaction,
update the node row, then children's `parent_id`, then edge endpoints — but
only when the first UPDATE changed a row.  Disabling `foreign_keys` does not
disable the primary key on `nodes.id`, so when a different row already bears
`newId` the first UPDATE throws a UNIQUE-constraint error, the transaction
is rolled back and the exception propagates to the caller. -/
def renameNodeId (st : Store) (now oldId newId : String) :
    Except String (Bool × Store) :=
  let changed := st.nodes.any (fun n => n.id == oldId)
  if changed then
    if st.nodes.any (fun n => !(n.id == oldId) && n.id == newId) then
      .error "UNIQUE constraint failed: nodes.id"
    else
      let nodes1 := st.nodes.map (renameNodeRow oldId newId now)
      let nodes2 := nodes1.map (renameParentRef oldId newId)
      let edges1 := st.edges.map (renameEdgeFrom oldId newId)
      let edges2 := edges1.map (renameEdgeTo oldId newId)
      .ok (true, { nodes := nodes2, edges := edges2 })
  else .ok (false, st)

/-- Model of `deleteEdgesForNode(nodeId)`. -/
def deleteEdgesForNode (st : Store) (nodeId : String) : Store :=
  { st with edges := st.edges.filter (fun e =>
      !(e.from_id == nodeId || e.to_id == nodeId)) }

/-- Model of `hardDeleteNode(id)`: delete the incident edges, then the row itself. -/
def hardDeleteNode (st : Store) (id : String) : Store :=
  let st1 := deleteEdgesForNode st id
  { st1 with nodes := st1.nodes.filter (fun n => !(n.id == id)) }

/-- Model of `insertNodeRaw(node)`: INSERT of a full row verbatim (explicit NULLs
override the column defaults); the primary key on `id` still applies. -/
def insertNodeRaw (st : Store) (n : NodeRow) : Except String Store :=
  if st.nodes.any (fun m => m.id == n.id) then
    .error "UNIQUE constraint failed: nodes.id"
  else .ok { st with nodes := st.nodes ++ [n] }

/-- Model of `insertEdgeRaw(edge)`: INSERT of a full edge row verbatim. -/
def insertEdgeRaw (st : Store) (e : EdgeRow) : Store :=
  { st with edges := st.edges ++ [e] }

/-! ## Schema migrations (`migrate` in `db.ts`) -/

/-- A table of the relational schema: its name and its column names in
declaration order (indices are not modelled; no claim refers to them). -/
structure TableDef where
  name : String
  columns : List String
  deriving Repr, DecidableEq

/-- The schema-level state of a store file: its tables and the value of the
`user_version` pragma slot. -/
structure SchemaState where
  tables : List TableDef
  userVersion : Nat
  deriving Repr, DecidableEq

/-- Model of `SCHEMA_VERSION` from `db.ts`. -/
def SCHEMA_VERSION : Nat := 2

/-- Columns of `CREATE TABLE nodes` in the v1 migration. -/
def nodesTableColumns : List String :=
  ["id", "name", "kind", "summary", "why", "file_refs", "parent_id",
   "created_by_task", "created_at", "updated_at", "removed_at",
   "removed_reason", "embedding", "merge_group", "needs_merge",
   "source_branch", "merge_timestamp"]

/-- Columns of `CREATE TABLE edges` in the v1 migration. -/
def edgesTableColumns : List String :=
  ["id", "from_id", "to_id", "relation", "description", "created_at",
   "merge_group", "needs_merge", "source_branch", "merge_timestamp"]

/-- Model of `CREATE TABLE IF NOT EXISTS`. -/
def createTableIfAbsent (s : SchemaState) (t : TableDef) : SchemaState :=
  if s.tables.any (fun u => u.name == t.name) then s
  else { s with tables := s.tables ++ [t] }

/-- Whether `PRAGMA table_info(table)` lists the column. -/
def schemaHasColumn (s : SchemaState) (table col : String) : Bool :=
  s.tables.any (fun t => t.name == table && t.columns.contains col)

/-- Model of `ALTER TABLE table ADD COLUMN ...` for each listed column. -/
def addTableColumns (s : SchemaState) (table : String) (cols : List String) :
    SchemaState :=
  { s with tables := s.tables.map (fun t =>
      if t.name == table then { t with columns := t.columns ++ cols } else t) }

/-- The four merge-metadata columns added by the v2 migration. -/
def mergeMetadataColumns : List String :=
  ["merge_group", "needs_merge", "source_branch", "merge_timestamp"]

/-- Model of `migrate()` from `db.ts`: read `user_version`; below 1, create the
`nodes` and `edges` tables; below 2, add the merge columns to either table
when absent; finally stamp `user_version = SCHEMA_VERSION` when below it. -/
def migrate (s : SchemaState) : SchemaState :=
  let version := s.userVersion
  let s1 := if version < 1 then
      createTableIfAbsent
        (createTableIfAbsent s ⟨"nodes", nodesTableColumns⟩)
        ⟨"edges", edgesTableColumns⟩
    else s
  let s2 := if version < 2 then
      let s2a := if !(schemaHasColumn s1 "nodes" "merge_group") then
          addTableColumns s1 "nodes" mergeMetadataColumns
        else s1
      if !(schemaHasColumn s2a "edges" "merge_group") then
        addTableColumns s2a "edges" mergeMetadataColumns
      else s2a
    else s1
  if version < SCHEMA_VERSION then { s2 with userVersion := SCHEMA_VERSION }
  else s2

/-- The schema of a store file that did not exist before: `user_version`
starts at 0 with no tables, then the constructor runs `migrate()`. -/
def freshStoreSchema : SchemaState := migrate ⟨[], 0⟩

/-! ## Tool layer (`tools.ts`) -/

/-- One entry of the `edges` list accepted by `create_concept` (its `to`
field is named `toId` here because `to` is reserved in Lean). -/
structure EdgeSpec where
  toId : String
  relation : String
  description : Option String := none
  deriving Repr, DecidableEq

/-- The input of `create_concept` (`CreateConceptInput` in `types.ts`). -/
structure CreateConceptInput where
  name : String
  kind : String
  summary : String
  why : Option String := none
  parent_id : Option String := none
  file_refs : Option (List String) := none
  edges : Option (List EdgeSpec) := none
  created_by_task : Option String := none
  deriving Repr, DecidableEq

/-- Model of `createConcept(db, input)` from `tools.ts`: slugify the name, reject a
live duplicate, reject a missing live parent, embed, insert the node, then
insert each requested edge whose target is a live node (others are silently
skipped).  A thrown store error (such as the UNIQUE constraint on a
soft-deleted duplicate id) propagates. -/
def createConcept (embedFn : String → List ℚ) (st : Store) (now : String)
    (input : CreateConceptInput) : Except String (Store × String) := do
  let id := makeId input.name input.parent_id
  if nodeExists st id then
    throw ("Concept \"" ++ id ++ "\" already exists. Use update_concept to modify it.")
  if (match input.parent_id with
      | some p => !(nodeExists st p)
      | none => false) then
    throw ("Parent concept \"" ++ input.parent_id.getD "" ++ "\" does not exist.")
  let emb := embedFn (embeddingText input.name input.kind input.summary)
  let st1 ← insertNode st now id input.name input.kind input.summary
    input.why input.file_refs input.parent_id input.created_by_task (some emb)
  let st2 ← (input.edges.getD []).foldlM (fun acc es =>
    if nodeExists acc es.toId then
      insertEdge acc now id es.toId es.relation es.description
    else pure acc) st1
  pure (st2, "Created concept \"" ++ id ++ "\"")

/-- The `changes` object of `update_concept` (`UpdateConceptInput`). -/
structure ConceptChanges where
  name : Option String := none
  kind : Option String := none
  summary : Option String := none
  why : Option String := none
  file_refs : Option (List String) := none
  deriving Repr, DecidableEq

/-- Model of `updateConcept(db, input)` from `tools.ts`: fail when the live node is
missing; regenerate the embedding only when `changes` contains `summary` or
`name` (using the post-patch name, kind and summary); apply the patch via
`updateNode`; report whether anything changed. -/
def updateConcept (embedFn : String → List ℚ) (st : Store) (now : String)
    (id : String) (changes : ConceptChanges) : Except String (Store × String) :=
  match getNode st id with
  | none => .error ("Concept \"" ++ id ++ "\" not found.")
  | some existing =>
    let embedding : Option (List ℚ) :=
      if changes.summary.isSome || changes.name.isSome then
        some (embedFn (embeddingText (changes.name.getD existing.name)
          (changes.kind.getD existing.kind)
          (changes.summary.getD existing.summary)))
      else none
    let r := updateNode st now id
      { name := changes.name, kind := changes.kind,
        summary := changes.summary, why := changes.why,
        file_refs := changes.file_refs, embedding := embedding }
    if r.1 then .ok (r.2, "Updated concept \"" ++ id ++ "\"")
    else .ok (r.2, "No changes applied to \"" ++ id ++ "\"")

/-! ## Merge engine (`merge.ts`) -/

def MERGE_SUFFIX_LEFT : String := "::left"

def MERGE_SUFFIX_RIGHT : String := "::right"

/-- Model of `id.endsWith(suffix)` on character lists. -/
def strEndsWith (s suffix : String) : Bool :=
  List.isSuffixOf suffix.data s.data

/-- Model of `id.slice(0, -n)`: drop the last `n` characters. -/
def strDropRight (s : String) (n : Nat) : String :=
  String.mk (s.data.take (s.data.length - n))

/-- Model of `stripMergeSuffix(id)` from `merge.ts`. -/
def stripMergeSuffix (id : String) : String :=
  if strEndsWith id MERGE_SUFFIX_LEFT then
    strDropRight id MERGE_SUFFIX_LEFT.length
  else if strEndsWith id MERGE_SUFFIX_RIGHT then
    strDropRight id MERGE_SUFFIX_RIGHT.length
  else id

/-- Model of `hasMergeSuffix(id)` from `merge.ts`. -/
def hasMergeSuffix (id : String) : Bool :=
  strEndsWith id MERGE_SUFFIX_LEFT || strEndsWith id MERGE_SUFFIX_RIGHT

example : stripMergeSuffix "foo::left" = "foo" := by decide
example : stripMergeSuffix "parent/child::left" = "parent/child" := by decide
example : stripMergeSuffix "foo" = "foo" := by decide

/-- Model of `nodesAreIdentical(left, right)` from `merge.ts`: compare name, kind,
summary, `why` (null equivalent to `""`), `parent_id` (likewise),
JSON-normalized `file_refs`, and the removed-state boolean.  Timestamps,
embedding and merge metadata are ignored. -/
def nodesAreIdentical (l r : NodeRow) : Bool :=
  l.name == r.name && l.kind == r.kind && l.summary == r.summary &&
  l.why.getD "" == r.why.getD "" &&
  l.parent_id.getD "" == r.parent_id.getD "" &&
  l.file_refs == r.file_refs &&
  l.removed_at.isSome == r.removed_at.isSome

/-- Model of `edgeKey(e)` from `merge.ts`: the content key of an edge. -/
def edgeKey (e : EdgeRow) : String :=
  e.from_id ++ "|" ++ e.to_id ++ "|" ++ e.relation ++ "|" ++ e.description.getD ""

/-- Keep the first occurrence of each element (a JavaScript `Set` built by
insertion, read in insertion order). -/
def dedupFirstAux (seen : List String) : List String → List String
  | [] => []
  | x :: xs =>
    if seen.contains x then dedupFirstAux seen xs
    else x :: dedupFirstAux (x :: seen) xs

def dedupFirst (l : List String) : List String := dedupFirstAux [] l

/-- Model of `edgeSetsAreIdentical(left, right)` from `merge.ts`: equal lengths and
equal key sets. -/
def edgeSetsAreIdentical (left right : List EdgeRow) : Bool :=
  left.length == right.length &&
  (let leftKeys := dedupFirst (left.map edgeKey)
   let rightKeys := dedupFirst (right.map edgeKey)
   leftKeys.length == rightKeys.length &&
   leftKeys.all (fun k => rightKeys.contains k))

/-- Which input store an edge came from (`_originSide`). -/
inductive Side
  | left
  | right
  deriving Repr, DecidableEq

/-- The remap key `left:<id>` / `right:<id>`. -/
def sideKey (side : Side) (id : String) : String :=
  (match side with | .left => "left:" | .right => "right:") ++ id

/-- A deferred edge operation of pass 1/2 (`DeferredEdge` in `merge.ts`). -/
structure DeferredEdge where
  from_id : String
  to_id : String
  relation : String
  description : Option String
  created_at : Option String
  merge_group : Option String
  needs_merge : Nat
  source_branch : Option String
  merge_timestamp : Option String
  originSide : Side
  deriving Repr, DecidableEq

/-- Model of `MergeResult` from `types.ts`. -/
structure MergeResult where
  clean : Nat
  conceptConflicts : Nat
  edgeConflicts : Nat
  removedClean : Nat
  mergeGroups : List String
  deriving Repr, DecidableEq

/-- The inputs of `performMerge`: the raw node and edge lists of the two
stores, the branch labels and the shared `now` timestamp. -/
structure MergeCtx where
  leftNodes : List NodeRow
  rightNodes : List NodeRow
  leftEdges : List EdgeRow
  rightEdges : List EdgeRow
  leftLabel : String
  rightLabel : String
  now : String
  deriving Repr

/-- The mutable state of `performMerge`: the output store, the deferred
edges, the conflicted canonical ids, the remap table (latest binding
first, as a JavaScript `Map` overwrite), the running counters, the stream
of fresh UUIDs standing in for `randomUUID()`, and the duplicate guard of
`deferPreexistingEdge`. -/
structure MergeState where
  out : Store
  deferred : List DeferredEdge
  conflictIds : List String
  remap : List (String × String)
  res : MergeResult
  uuids : List String
  seenPreKeys : List String
  deriving Repr

/-- Model of `edgeMap.get(nodeId) ?? []`: the edges whose `from_id` is the node. -/
def edgesFrom (edges : List EdgeRow) (nodeId : String) : List EdgeRow :=
  edges.filter (fun e => e.from_id == nodeId)

/-- Model of `insertNodeOnce(node)`: insert unless the id was already inserted. -/
def insertNodeOnce (s : MergeState) (n : NodeRow) : MergeState :=
  if s.out.nodes.any (fun m => m.id == n.id) then s
  else { s with out := { s.out with nodes := s.out.nodes ++ [n] } }

/-- Model of `deferPreexistingEdge(e, originSide)`: queue a pre-existing conflict
edge verbatim, deduplicated by its full key. -/
def deferPreexistingEdge (s : MergeState) (e : EdgeRow) (side : Side) :
    MergeState :=
  let key := e.from_id ++ "|" ++ e.to_id ++ "|" ++ e.relation ++ "|" ++
    e.description.getD "" ++ "|" ++ e.merge_group.getD "" ++ "|" ++
    toString e.needs_merge ++ "|" ++ e.source_branch.getD "" ++ "|" ++
    e.merge_timestamp.getD ""
  if s.seenPreKeys.contains key then s
  else { s with
    seenPreKeys := s.seenPreKeys ++ [key],
    deferred := s.deferred ++ [{
      from_id := e.from_id, to_id := e.to_id, relation := e.relation,
      description := e.description, created_at := e.created_at,
      merge_group := e.merge_group, needs_merge := e.needs_merge,
      source_branch := e.source_branch,
      merge_timestamp := e.merge_timestamp, originSide := side }] }

/-- Model of `insertConflictNode(node, suffixedId, mergeGroup, sourceLabel, now)`:
the suffixed copy of a conflicted record. -/
def mkConflictNode (n : NodeRow) (suffixedId mergeGroup sourceLabel
    timestamp : String) : NodeRow :=
  { n with
    id := suffixedId
    merge_group := some mergeGroup
    needs_merge := 1
    source_branch := some sourceLabel
    merge_timestamp := some timestamp }

/-- The deferred copy of an original outgoing edge of a conflicted node
(its `from_id` already suffixed; `to_id` remapped later in pass 2). -/
def deferConflictEdge (e : EdgeRow) (suffixed : String)
    (edgesConflict : Bool) (mergeGroup label now : String) (side : Side) :
    DeferredEdge :=
  { from_id := suffixed, to_id := e.to_id, relation := e.relation,
    description := e.description, created_at := e.created_at,
    merge_group := if edgesConflict then some mergeGroup else none,
    needs_merge := if edgesConflict then 1 else 0,
    source_branch := if edgesConflict then some label else none,
    merge_timestamp := if edgesConflict then some now else none,
    originSide := side }

/-- One iteration of pass 1 of `performMerge` over a canonical id. -/
def pass1Step (ctx : MergeCtx) (s : MergeState) (id : String) : MergeState :=
  let leftVariants := ctx.leftNodes.filter (fun n => stripMergeSuffix n.id == id)
  let rightVariants := ctx.rightNodes.filter (fun n => stripMergeSuffix n.id == id)
  let leftNode := ctx.leftNodes.find? (fun n => n.id == id)
  let rightNode := ctx.rightNodes.find? (fun n => n.id == id)
  let preexistingLeft := leftVariants.filter (fun n =>
    n.needs_merge == 1 && n.merge_group.isSome && hasMergeSuffix n.id)
  let preexistingRight := rightVariants.filter (fun n =>
    n.needs_merge == 1 && n.merge_group.isSome && hasMergeSuffix n.id)
  if !preexistingLeft.isEmpty || !preexistingRight.isEmpty then
    -- Pre-existing conflicts: carry all unresolved versions forward.
    let preexistingAll := preexistingLeft ++ preexistingRight
    let s1 := preexistingAll.foldl insertNodeOnce s
    let leftTarget := match preexistingAll.find? (fun n =>
        strEndsWith n.id MERGE_SUFFIX_LEFT) with
      | some n => some n
      | none => preexistingAll.head?
    let rightTarget := match preexistingAll.find? (fun n =>
        strEndsWith n.id MERGE_SUFFIX_RIGHT) with
      | some n => some n
      | none => match preexistingAll.getLast? with
        | some n => some n
        | none => preexistingAll.head?
    let s2 := match leftTarget with
      | some n => { s1 with remap := (sideKey .left id, n.id) :: s1.remap }
      | none => s1
    let s3 := match rightTarget with
      | some n => { s2 with remap := (sideKey .right id, n.id) :: s2.remap }
      | none => s2
    let s4 := preexistingLeft.foldl (fun acc node =>
      (edgesFrom ctx.leftEdges node.id).foldl
        (fun acc2 e => deferPreexistingEdge acc2 e .left) acc) s3
    let s5 := preexistingRight.foldl (fun acc node =>
      (edgesFrom ctx.rightEdges node.id).foldl
        (fun acc2 e => deferPreexistingEdge acc2 e .right) acc) s4
    { s5 with conflictIds := s5.conflictIds ++ [id] }
  else
    match leftNode, rightNode with
    | none, some rn =>
      let s1 := insertNodeOnce s rn
      if rn.removed_at.isSome then
        { s1 with res := { s1.res with removedClean := s1.res.removedClean + 1 } }
      else { s1 with res := { s1.res with clean := s1.res.clean + 1 } }
    | some ln, none =>
      let s1 := insertNodeOnce s ln
      if ln.removed_at.isSome then
        { s1 with res := { s1.res with removedClean := s1.res.removedClean + 1 } }
      else { s1 with res := { s1.res with clean := s1.res.clean + 1 } }
    | some ln, some rn =>
      if nodesAreIdentical ln rn then
        let s1 := insertNodeOnce s ln
        if ln.removed_at.isSome then
          { s1 with res := { s1.res with removedClean := s1.res.removedClean + 1 } }
        else { s1 with res := { s1.res with clean := s1.res.clean + 1 } }
      else
        -- Concept conflict: insert both sides with suffixed ids.
        let mergeGroup := s.uuids.headD "uuid-exhausted"
        let s1 := { s with
          uuids := s.uuids.tail,
          conflictIds := s.conflictIds ++ [id],
          res := { s.res with
            mergeGroups := s.res.mergeGroups ++ [mergeGroup],
            conceptConflicts := s.res.conceptConflicts + 1 } }
        let leftSuffixed := id ++ MERGE_SUFFIX_LEFT
        let rightSuffixed := id ++ MERGE_SUFFIX_RIGHT
        let s2 := { s1 with remap :=
          (sideKey .right id, rightSuffixed) ::
          (sideKey .left id, leftSuffixed) :: s1.remap }
        let s3 := { s2 with out := { s2.out with nodes := s2.out.nodes ++
          [mkConflictNode ln leftSuffixed mergeGroup ctx.leftLabel ctx.now,
           mkConflictNode rn rightSuffixed mergeGroup ctx.rightLabel ctx.now] } }
        let leftNodeEdges := edgesFrom ctx.leftEdges id
        let rightNodeEdges := edgesFrom ctx.rightEdges id
        let edgesConflict := !(edgeSetsAreIdentical leftNodeEdges rightNodeEdges)
        let hitEdgeConflict :=
          edgesConflict && (!leftNodeEdges.isEmpty || !rightNodeEdges.isEmpty)
        let s4 := if hitEdgeConflict then
            { s3 with res :=
                { s3.res with edgeConflicts := s3.res.edgeConflicts + 1 } }
          else s3
        let leftDeferred := leftNodeEdges.map (fun e =>
          deferConflictEdge e leftSuffixed edgesConflict mergeGroup
            ctx.leftLabel ctx.now Side.left)
        let rightDeferred := rightNodeEdges.map (fun e =>
          deferConflictEdge e rightSuffixed edgesConflict mergeGroup
            ctx.rightLabel ctx.now Side.right)
        { s4 with deferred := s4.deferred ++ leftDeferred ++ rightDeferred }
    | none, none => s

/-- A plain (non-conflict) deferred edge. -/
def plainDeferredEdge (e : EdgeRow) (side : Side) : DeferredEdge :=
  { from_id := e.from_id, to_id := e.to_id, relation := e.relation,
    description := e.description, created_at := e.created_at,
    merge_group := none, needs_merge := 0, source_branch := none,
    merge_timestamp := none, originSide := side }

/-- Model of `deferEdgesForNode`: queue the outgoing edges of a one-sided node. -/
def deferEdgesForNode (edges : List EdgeRow) (nodeId : String) (side : Side)
    (s : MergeState) : MergeState :=
  { s with deferred := s.deferred ++
      (edgesFrom edges nodeId).map (fun e => plainDeferredEdge e side) }

/-- Model of `deferEdgesClean`: for an identical node, queue the union of both
sides' outgoing edges, deduplicated by content key (left side first). -/
def deferEdgesClean (ctx : MergeCtx) (nodeId : String) (s : MergeState) :
    MergeState :=
  let leftEdges := edgesFrom ctx.leftEdges nodeId
  let rightEdges := edgesFrom ctx.rightEdges nodeId
  let step := fun (acc : List String × List DeferredEdge) (p : EdgeRow × Side) =>
    let key := edgeKey p.1
    if acc.1.contains key then acc
    else (key :: acc.1, acc.2 ++ [plainDeferredEdge p.1 p.2])
  let start : List String × List DeferredEdge := ([], [])
  let result := (leftEdges.map (fun e => (e, Side.left)) ++
    rightEdges.map (fun e => (e, Side.right))).foldl step start
  { s with deferred := s.deferred ++ result.2 }

/-- One iteration of the first loop of pass 2 (queue non-conflict edges). -/
def pass2Step (ctx : MergeCtx) (s : MergeState) (id : String) : MergeState :=
  if s.conflictIds.contains id then s
  else
    let leftNode := ctx.leftNodes.find? (fun n => n.id == id)
    let rightNode := ctx.rightNodes.find? (fun n => n.id == id)
    if (match leftNode with
        | some n => decide (n.needs_merge ≠ 0) && n.merge_group.isSome
        | none => false) then s
    else
      match leftNode, rightNode with
      | none, some rn => deferEdgesForNode ctx.rightEdges rn.id .right s
      | some ln, none => deferEdgesForNode ctx.leftEdges ln.id .left s
      | some ln, some _ => deferEdgesClean ctx ln.id s
      | none, none => s

/-- The final loop of pass 2: insert every deferred edge, rewriting `to_id`
through the remap keyed by the edge's origin side, falling back to the
unsuffixed id. -/
def insertDeferredEdges (s : MergeState) : Store :=
  s.deferred.foldl (fun st e =>
    let remappedToId := (s.remap.lookup (sideKey e.originSide e.to_id)).getD e.to_id
    insertEdgeRaw st {
      from_id := e.from_id, to_id := remappedToId, relation := e.relation,
      description := e.description, created_at := e.created_at,
      merge_group := e.merge_group, needs_merge := e.needs_merge,
      source_branch := e.source_branch,
      merge_timestamp := e.merge_timestamp }) s.out

/-- Model of `performMerge` from `merge.ts` (the output store starts empty; the
`randomUUID()` calls consume the supplied stream of fresh ids). -/
def performMerge (ctx : MergeCtx) (uuids : List String) :
    Store × MergeResult :=
  let allIds := dedupFirst
    (ctx.leftNodes.map (fun n => stripMergeSuffix n.id) ++
     ctx.rightNodes.map (fun n => stripMergeSuffix n.id))
  let s0 : MergeState := {
    out := ⟨[], []⟩, deferred := [], conflictIds := [], remap := [],
    res := ⟨0, 0, 0, 0, []⟩, uuids := uuids, seenPreKeys := [] }
  let s1 := allIds.foldl (pass1Step ctx) s0
  let s2 := allIds.foldl (pass2Step ctx) s1
  (insertDeferredEdges s2, s2.res)

/-! ## Conflict resolution (`runResolve` in `merge-cli.ts`) -/

/-- The `--keep` strategy of `megamemory resolve`. -/
inductive Keep
  | left
  | right
  | both
  deriving Repr, DecidableEq

/-- The keep-one-side branch of `runResolve`: hard-delete the loser first,
rename the winner back to the canonical id (a thrown rename error — the
UNIQUE constraint when the canonical id exists — propagates, with the hard
delete of the loser already committed), clear the node's merge flags and
the group's edge flags. -/
def resolveKeepOne (st : Store) (now originalId mergeGroup : String)
    (winner loser : Option NodeRow) (keepName : String) :
    Except String Store :=
  match winner with
  | none => .error ("No " ++ keepName ++ " version found in this merge group.")
  | some w =>
    let st1 := match loser with
      | some l => hardDeleteNode st l.id
      | none => st
    match renameNodeId st1 now w.id originalId with
    | .error e => .error e
    | .ok r =>
      let st3 := clearNodeMergeFlags r.2 now originalId
      .ok (clearEdgeMergeFlagsByGroup st3 mergeGroup)

/-- The resolution logic of `runResolve` from `merge-cli.ts` (after flag
parsing): load the group, identify the `::left`/`::right` variants, then
apply the chosen strategy. -/
def resolveGroup (st : Store) (now mergeGroup : String) (keep : Keep) :
    Except String Store :=
  match getNodesByMergeGroup st mergeGroup with
  | [] => .error ("No nodes found with merge_group: " ++ mergeGroup)
  | n0 :: rest =>
    let nodes := n0 :: rest
    let leftNode := nodes.find? (fun n => strEndsWith n.id MERGE_SUFFIX_LEFT)
    let rightNode := nodes.find? (fun n => strEndsWith n.id MERGE_SUFFIX_RIGHT)
    if leftNode.isNone && rightNode.isNone then
      .error "Could not identify left/right versions in this merge group."
    else
      let originalId := stripMergeSuffix n0.id
      match keep with
      | .both =>
        match (match leftNode with
          | some ln =>
            let newId := originalId ++ "-" ++ ln.source_branch.getD "left"
            (renameNodeId st now ln.id newId).map
              (fun (r : Bool × Store) => clearNodeMergeFlags r.2 now newId)
          | none => .ok st) with
        | .error e => .error e
        | .ok st1 =>
          match (match rightNode with
            | some rn =>
              let newId := originalId ++ "-" ++ rn.source_branch.getD "right"
              (renameNodeId st1 now rn.id newId).map
                (fun (r : Bool × Store) => clearNodeMergeFlags r.2 now newId)
            | none => .ok st1) with
          | .error e => .error e
          | .ok st2 => .ok (clearEdgeMergeFlagsByGroup st2 mergeGroup)
      | .left =>
        resolveKeepOne st now originalId mergeGroup leftNode rightNode "left"
      | .right =>
        resolveKeepOne st now originalId mergeGroup rightNode leftNode "right"

/-! ## Fixtures shared by the theorems below -/

/-- A plain live node with default content, as the merge test fixtures
build them: `name = id`, `kind = "feature"`, everything optional null. -/
def mkTestNode (id summary : String) : NodeRow :=
  { id := id, name := id, kind := "feature", summary := summary,
    why := none, file_refs := none, parent_id := none,
    created_by_task := none, created_at := "t0", updated_at := "t0",
    removed_at := none, removed_reason := none, embedding := none,
    merge_group := none, needs_merge := 0, source_branch := none,
    merge_timestamp := none }

/-- The merge input of the "clean edge to conflicted target" scenario:
`caller` has the same summary `sc` on both sides, `target` has summaries
`sl` / `sr`, and only the left store has the edge `caller —calls→ target`. -/
def cleanEdgeCtx (sc sl sr : String) (desc : Option String) : MergeCtx :=
  { leftNodes := [mkTestNode "caller" sc, mkTestNode "target" sl]
    rightNodes := [mkTestNode "caller" sc, mkTestNode "target" sr]
    leftEdges := [{
      from_id := "caller"
      to_id := "target"
      relation := "calls"
      description := desc
      created_at := some "t0"
      merge_group := none
      needs_merge := 0
      source_branch := none
      merge_timestamp := none }]
    rightEdges := []
    leftLabel := "left"
    rightLabel := "right"
    now := "tm" }

example :
    ((performMerge (cleanEdgeCtx "S" "L" "R" none) ["g1"]).1.nodes.map
      (fun n => n.id)) = ["caller", "target::left", "target::right"] := by
  decide

example :
    ((performMerge (cleanEdgeCtx "S" "L" "R" none) ["g1"]).1.edges.map
      (fun e => (e.from_id, e.to_id, e.relation))) =
      [("caller", "target::left", "calls")] := by
  decide

example :
    (performMerge (cleanEdgeCtx "S" "L" "R" none) ["g1"]).2.clean = 1 ∧
    (performMerge (cleanEdgeCtx "S" "L" "R" none) ["g1"]).2.conceptConflicts = 1 := by
  decide

/-- C7: merging two sides where `caller` is content-identical on both and
`target` differs (summaries `sl ≠ sr`), with the edge `caller —calls→
target` only on the left: the output holds exactly `caller` (unsuffixed),
`target::left` and `target::right`, and caller's single outgoing edge was
remapped through the origin-side key `left:target` to point at
`target::left`; the counters report one clean node and one concept
conflict. -/
theorem merge_clean_edge_to_conflicted_target (sc sl sr : String)
    (desc : Option String) (g : String) (hne : sl ≠ sr) :
    ((performMerge (cleanEdgeCtx sc sl sr desc) [g]).1.nodes.map
      (fun n => n.id)) = ["caller", "target::left", "target::right"] ∧
    ((performMerge (cleanEdgeCtx sc sl sr desc) [g]).1.edges.map
      (fun e => (e.from_id, e.to_id, e.relation, e.description))) =
      [("caller", "target::left", "calls", desc)] ∧
    (performMerge (cleanEdgeCtx sc sl sr desc) [g]).2.clean = 1 ∧
    (performMerge (cleanEdgeCtx sc sl sr desc) [g]).2.conceptConflicts = 1 := by
  have hb : (sl == sr) = false := beq_eq_false_iff_ne.mpr hne
  refine ⟨?_, ?_, ?_, ?_⟩ <;>
  simp [performMerge, cleanEdgeCtx, mkTestNode, dedupFirst, dedupFirstAux,
    stripMergeSuffix, strEndsWith, strDropRight, MERGE_SUFFIX_LEFT,
    MERGE_SUFFIX_RIGHT, pass1Step, pass2Step, nodesAreIdentical,
    hasMergeSuffix, insertNodeOnce, mkConflictNode, edgesFrom,
    edgeSetsAreIdentical, edgeKey, deferConflictEdge, deferEdgesClean,
    deferEdgesForNode, plainDeferredEdge, insertDeferredEdges,
    insertEdgeRaw, sideKey, hb, List.isSuffixOf, List.lookup]

/-- Witness for C7 with summaries `S`, `L`, `R` and no edge description. -/
theorem merge_clean_edge_to_conflicted_target_witness :
    ("L" : String) ≠ "R" ∧
    (((performMerge (cleanEdgeCtx "S" "L" "R" none) ["g1"]).1.nodes.map
      (fun n => n.id)) = ["caller", "target::left", "target::right"] ∧
    ((performMerge (cleanEdgeCtx "S" "L" "R" none) ["g1"]).1.edges.map
      (fun e => (e.from_id, e.to_id, e.relation, e.description))) =
      [("caller", "target::left", "calls", none)] ∧
    (performMerge (cleanEdgeCtx "S" "L" "R" none) ["g1"]).2.clean = 1 ∧
    (performMerge (cleanEdgeCtx "S" "L" "R" none) ["g1"]).2.conceptConflicts
      = 1) :=
  ⟨by decide,
    merge_clean_edge_to_conflicted_target "S" "L" "R" none "g1" (by decide)⟩

/-! ## Claims -/

/-- C2: the claim says a fresh store is created at schema version 3 with a
`timeline` table.  Evaluating `migrate` on a fresh store (`user_version`
0): the code stamps `user_version = SCHEMA_VERSION = 2` and creates only
the `nodes` and `edges` tables — no `timeline` table exists.  (The repo's
own `timeline.test.ts` asserts version 3 and the timeline columns, so the
shipped `db.ts` contradicts its own tests.) -/
theorem fresh_store_is_version2_without_timeline :
    SCHEMA_VERSION = 2 ∧
    freshStoreSchema.userVersion = 2 ∧
    freshStoreSchema.tables.map (fun t => t.name) = ["nodes", "edges"] ∧
    (∀ t ∈ freshStoreSchema.tables, t.name ≠ "timeline") := by
  decide

/-- The failing input of claim C6, taken from the repository's own test
fixture (`embeddings.test.ts`): one valid candidate, one with a
zero-length embedding, one with a null embedding. -/
def emptyEmbeddingCandidates : List Candidate :=
  [{ id := "valid", name := "Valid", kind := "feature", summary := "",
     embedding := some [1, 0, 0] },
   { id := "empty-buf", name := "Empty", kind := "feature", summary := "",
     embedding := some [] },
   { id := "null-emb", name := "Null", kind := "feature", summary := "",
     embedding := none }]

/-- C6: the claim says `find_top_k` filters out candidates whose embedding
is null **or empty** and never fails on an empty embedding.  Evaluating the
code at the repo's own test fixture: the filter keeps the zero-length
candidate (it only tests for null), and `cosineSimilarity` then throws a
dimension mismatch, so the whole call fails instead of returning
`["valid"]` as the test expects. -/
theorem findTopK_throws_on_empty_embedding :
    findTopK [1, 0, 0] emptyEmbeddingCandidates 10 =
      .error "Embedding dimension mismatch: 3 vs 0" ∧
    (emptyEmbeddingCandidates.filter (fun c => c.embedding ≠ none)).map
      (fun c => c.id) = ["valid", "empty-buf"] := by
  refine ⟨?_, by decide⟩
  simp only [findTopK, emptyEmbeddingCandidates, cosineSimilarity, dotProd,
    List.filter, List.mapM, List.mapM.loop, sortByDescSim]
  norm_num
  rfl

/-- C9: the slugifier prefixes `parent_id ++ "/"` exactly when a parent is
given, and maps the claim's concrete inputs as stated. -/
theorem makeId_slugify_spec :
    (∀ (name p : String),
      makeId name (some p) = p ++ "/" ++ makeId name none) ∧
    makeId "MCP Server" = "mcp-server" ∧
    makeId "Hello, World! (v2)" = "hello-world-v2" ∧
    makeId "--leading-trailing--" = "leading-trailing" ∧
    makeId "my_cool_feature" = "my-cool-feature" ∧
    makeId "foo---bar" = "foo-bar" ∧
    makeId "Tool Registration" (some "mcp-server") =
      "mcp-server/tool-registration" := by
  refine ⟨fun name p => ?_, by decide, by decide, by decide, by decide,
    by decide, by decide⟩
  simp [makeId]

/-- C10: `deleteEdge(from, to, relation)` removes every edge matching the
triple (so duplicates go in one call), keeps every other edge and the
nodes, and reports success exactly when at least one edge matched. -/
theorem deleteEdge_deletes_all_matching (st : Store) (f t r : String) :
    (∀ e ∈ (deleteEdge st f t r).2.edges, edgeTripleMatches f t r e = false) ∧
    (∀ e ∈ st.edges, edgeTripleMatches f t r e = false →
      e ∈ (deleteEdge st f t r).2.edges) ∧
    (deleteEdge st f t r).2.nodes = st.nodes ∧
    ((deleteEdge st f t r).1 = true ↔
      ∃ e ∈ st.edges, edgeTripleMatches f t r e = true) := by
  refine ⟨?_, ?_, rfl, ?_⟩
  · intro e he
    simp only [deleteEdge, List.mem_filter, Bool.not_eq_true'] at he
    exact he.2
  · intro e he hf
    simp only [deleteEdge, List.mem_filter, Bool.not_eq_true']
    exact ⟨he, hf⟩
  · simp only [deleteEdge, decide_eq_true_eq]
    constructor
    · intro h
      rcases List.countP_pos_iff.mp h with ⟨e, he, hp⟩
      exact ⟨e, he, hp⟩
    · intro ⟨e, he, hp⟩
      exact List.countP_pos_iff.mpr ⟨e, he, hp⟩

/-- Witness for C10 at a concrete store: two duplicate `calls` edges and an
unrelated edge; both duplicates disappear in one call, the unrelated edge
survives, and the call reports success. -/
theorem deleteEdge_deletes_all_matching_witness :
    (∀ e ∈ (deleteEdge ⟨[], [⟨"a", "b", "calls", none, none, none, 0, none, none⟩,
        ⟨"a", "b", "calls", some "dup", none, none, 0, none, none⟩,
        ⟨"a", "c", "calls", none, none, none, 0, none, none⟩]⟩ "a" "b" "calls").2.edges,
      edgeTripleMatches "a" "b" "calls" e = false) ∧
    ((deleteEdge ⟨[], [⟨"a", "b", "calls", none, none, none, 0, none, none⟩,
        ⟨"a", "b", "calls", some "dup", none, none, 0, none, none⟩,
        ⟨"a", "c", "calls", none, none, none, 0, none, none⟩]⟩ "a" "b" "calls").1 = true ↔
      ∃ e ∈ ([⟨"a", "b", "calls", none, none, none, 0, none, none⟩,
        ⟨"a", "b", "calls", some "dup", none, none, 0, none, none⟩,
        ⟨"a", "c", "calls", none, none, none, 0, none, none⟩] : List EdgeRow),
        edgeTripleMatches "a" "b" "calls" e = true) := by
  have h := deleteEdge_deletes_all_matching
    ⟨[], [⟨"a", "b", "calls", none, none, none, 0, none, none⟩,
      ⟨"a", "b", "calls", some "dup", none, none, 0, none, none⟩,
      ⟨"a", "c", "calls", none, none, none, 0, none, none⟩]⟩ "a" "b" "calls"
  exact ⟨h.1, h.2.2.2⟩

/-- The store of claim C1's counterexample: a live parent `p` and a live
child `c` whose `parent_id` is `p`. -/
def parentChildStore : Store :=
  ⟨[mkTestNode "p" "parent",
    { mkTestNode "c" "child" with parent_id := some "p" }], []⟩

/-- C1 counterexample: soft-deleting `p` succeeds and hides it from
`getNode`, but the live child `c` keeps `parent_id = "p"` — the claim's
"every live node whose parent_id was id has its parent_id cleared to null"
is false (`softDeleteNode` never touches children). -/
theorem softDeleteNode_does_not_clear_child_parent :
    (softDeleteNode parentChildStore "t1" "p" "retired").1 = true ∧
    getNode (softDeleteNode parentChildStore "t1" "p" "retired").2 "p" = none ∧
    ¬ (∀ n ∈ (softDeleteNode parentChildStore "t1" "p" "retired").2.nodes,
        n.removed_at = none → n.parent_id ≠ some "p") := by
  decide

/-- C1 amended: after `soft_delete_node(id, r)` on a live id, `get_node(id)`
is none, `get_node_including_removed(id)` carries `removed_reason = r`, no
edge touches `id` at either endpoint — and every other node row (children
included) is left untouched, so a live child keeps its `parent_id` instead
of being cleared to null. -/
theorem softDeleteNode_amended (st : Store) (now id reason : String)
    (hNodup : (st.nodes.map (fun n => n.id)).Nodup)
    (hLive : ∃ n ∈ st.nodes, n.id = id ∧ n.removed_at = none) :
    (softDeleteNode st now id reason).1 = true ∧
    getNode (softDeleteNode st now id reason).2 id = none ∧
    (∃ n, getNodeIncludingRemoved (softDeleteNode st now id reason).2 id =
        some n ∧ n.removed_at = some now ∧ n.removed_reason = some reason) ∧
    (∀ e ∈ (softDeleteNode st now id reason).2.edges,
      e.from_id ≠ id ∧ e.to_id ≠ id) ∧
    (∀ n ∈ st.nodes, n.id ≠ id →
      n ∈ (softDeleteNode st now id reason).2.nodes) := by
  obtain ⟨n0, hmem0, hid0, hlive0⟩ := hLive
  have hchanged :
      (st.nodes.any (fun n => n.id == id && n.removed_at == none)) = true :=
    List.any_eq_true.mpr ⟨n0, hmem0, by simp [hid0, hlive0]⟩
  have hinj := List.inj_on_of_nodup_map hNodup
  have hnodes : (softDeleteNode st now id reason).2.nodes =
      st.nodes.map (fun n =>
        if n.id == id && n.removed_at == none then
          { n with removed_at := some now, removed_reason := some reason,
                   updated_at := now }
        else n) := rfl
  have hedges : (softDeleteNode st now id reason).2.edges =
      st.edges.filter (fun e => !(e.from_id == id || e.to_id == id)) := by
    simp only [softDeleteNode, hchanged, if_true]
  refine ⟨by simpa [softDeleteNode] using hchanged, ?_, ?_, ?_, ?_⟩
  · rw [getNode, hnodes]
    apply List.find?_eq_none.mpr
    intro x hx
    rw [List.mem_map] at hx
    obtain ⟨m, hm, hfm⟩ := hx
    by_cases hc : (m.id == id && m.removed_at == none) = true
    · rw [if_pos hc] at hfm
      subst hfm
      simp
    · rw [if_neg hc] at hfm
      subst hfm
      simpa using hc
  · have hexists : ∃ x ∈ (softDeleteNode st now id reason).2.nodes,
        (x.id == id) = true := by
      rw [hnodes]
      refine ⟨_, List.mem_map.mpr ⟨n0, hmem0, rfl⟩, ?_⟩
      simp [hid0, hlive0]
    obtain ⟨a, ha⟩ := Option.isSome_iff_exists.mp
      (List.find?_isSome.mpr hexists)
    have hamem := List.mem_of_find?_eq_some ha
    have hapred : (a.id == id) = true :=
      List.find?_some (p := fun (x : NodeRow) => x.id == id) ha
    refine ⟨a, ha, ?_⟩
    rw [hnodes, List.mem_map] at hamem
    obtain ⟨m, hm, hfm⟩ := hamem
    by_cases hc : (m.id == id && m.removed_at == none) = true
    · rw [if_pos hc] at hfm
      subst hfm
      exact ⟨rfl, rfl⟩
    · exfalso
      rw [if_neg hc] at hfm
      have hmid : m.id = id := by rw [hfm]; exact beq_iff_eq.mp hapred
      have hmn : m = n0 := hinj hm hmem0 (by rw [hmid, hid0])
      apply hc
      rw [hmn]
      simp [hid0, hlive0]
  · intro e he
    rw [hedges, List.mem_filter] at he
    have := he.2
    simp only [Bool.not_eq_true', Bool.or_eq_false_iff] at this
    exact ⟨beq_eq_false_iff_ne.mp this.1, beq_eq_false_iff_ne.mp this.2⟩
  · intro n hn hne
    rw [hnodes]
    refine List.mem_map.mpr ⟨n, hn, ?_⟩
    rw [if_neg]
    simp [hne]

/-- Witness for C1's amended theorem at the concrete two-node store. -/
theorem softDeleteNode_amended_witness :
    ((parentChildStore.nodes.map (fun n => n.id)).Nodup ∧
      ∃ n ∈ parentChildStore.nodes, n.id = "p" ∧ n.removed_at = none) ∧
    getNode (softDeleteNode parentChildStore "t1" "p" "retired").2 "p" =
      none :=
  ⟨⟨by decide, by decide⟩,
    (softDeleteNode_amended parentChildStore "t1" "p" "retired"
      (by decide) (by decide)).2.1⟩

/-- C5 counterexample: the name `"!!!"` slugifies to the empty string, yet
`createConcept` does **not** treat the empty id as an error — on an empty
store it succeeds and inserts a node whose id is `""`. -/
theorem createConcept_inserts_empty_id :
    createConcept (fun _ => [1]) ⟨[], []⟩ "t1"
      { name := "!!!", kind := "feature", summary := "S" } =
    .ok (⟨[{ id := "", name := "!!!", kind := "feature", summary := "S",
             why := none, file_refs := none, parent_id := none,
             created_by_task := none, created_at := "t1",
             updated_at := "t1", removed_at := none, removed_reason := none,
             embedding := some [1], merge_group := none, needs_merge := 0,
             source_branch := none, merge_timestamp := none }], []⟩,
          "Created concept \"\"") ∧
    makeId "!!!" = "" := by
  decide

/-- C5 amended: `createConcept` performs no validation of the empty slug.
For any name whose slugification is empty and any parent (absent, or given
and live), when no node with the resulting id exists the call succeeds and
inserts a node whose id is `""` without a parent, or `parent_id ++ "/"`
with one. -/
theorem createConcept_emptyid_amended (embedFn : String → List ℚ)
    (st : Store) (now name kind summary : String) (par : Option String)
    (hslug : makeId name none = "")
    (hpar : ∀ p, par = some p → nodeExists st p = true)
    (hnone : ∀ n ∈ st.nodes, n.id ≠ makeId name par) :
    makeId name par = par.elim "" (fun p => p ++ "/") ∧
    ∃ r, createConcept embedFn st now
        { name := name, kind := kind, summary := summary,
          parent_id := par } = .ok r ∧
      r.2 = "Created concept \"" ++ makeId name par ++ "\"" ∧
      ∃ n ∈ r.1.nodes, n.id = makeId name par ∧ n.name = name ∧
        n.parent_id = par := by
  cases par with
  | none =>
    have hex : nodeExists st (makeId name none) = false := by
      rw [nodeExists, List.any_eq_false]
      intro n hn
      simp [hnone n hn]
    have hany : (st.nodes.any (fun n => n.id == makeId name none)) =
        false := by
      rw [List.any_eq_false]
      intro n hn
      simp [hnone n hn]
    refine ⟨hslug, ({ st with nodes := st.nodes ++ [{
        id := makeId name none, name := name, kind := kind,
        summary := summary, why := none, file_refs := none,
        parent_id := none, created_by_task := none, created_at := now,
        updated_at := now, removed_at := none, removed_reason := none,
        embedding := some (embedFn (embeddingText name kind summary)),
        merge_group := none, needs_merge := 0, source_branch := none,
        merge_timestamp := none }] },
      "Created concept \"" ++ makeId name none ++ "\""), ?_, rfl, ?_⟩
    · simp only [createConcept, hex, Bool.false_eq_true, if_false,
        insertNode, hany, Option.getD_none, List.foldlM_nil]
      rfl
    · exact ⟨_, List.mem_append_right _ (List.mem_singleton.mpr rfl),
        rfl, rfl, rfl⟩
  | some p =>
    have hlive : nodeExists st p = true := hpar p rfl
    have hid : makeId name (some p) = p ++ "/" := by
      have hsplit : makeId name (some p) = p ++ "/" ++ makeId name none :=
        rfl
      rw [hsplit, hslug]
      simp
    have hex : nodeExists st (makeId name (some p)) = false := by
      rw [nodeExists, List.any_eq_false]
      intro n hn
      simp [hnone n hn]
    have hany : (st.nodes.any (fun n => n.id == makeId name (some p))) =
        false := by
      rw [List.any_eq_false]
      intro n hn
      simp [hnone n hn]
    have hfk : (st.nodes.any fun n => n.id == p) = true := by
      rw [nodeExists, List.any_eq_true] at hlive
      obtain ⟨n, hn, hp⟩ := hlive
      exact List.any_eq_true.mpr ⟨n, hn, Bool.and_elim_left hp⟩
    refine ⟨hid, ({ st with nodes := st.nodes ++ [{
        id := makeId name (some p), name := name, kind := kind,
        summary := summary, why := none, file_refs := none,
        parent_id := some p, created_by_task := none, created_at := now,
        updated_at := now, removed_at := none, removed_reason := none,
        embedding := some (embedFn (embeddingText name kind summary)),
        merge_group := none, needs_merge := 0, source_branch := none,
        merge_timestamp := none }] },
      "Created concept \"" ++ makeId name (some p) ++ "\""), ?_, rfl, ?_⟩
    · simp only [createConcept, hex, hlive, hfk, Bool.not_true,
        Bool.false_eq_true, if_false, insertNode, hany, Option.getD_none,
        List.foldlM_nil]
      rfl
    · exact ⟨_, List.mem_append_right _ (List.mem_singleton.mpr rfl),
        rfl, rfl, rfl⟩

/-- Witness for C5's amended theorem exercising the parent-given case:
the name `"!!!"` under the live parent `"mcp-server"` yields the inserted
id `"mcp-server/"`. -/
theorem createConcept_emptyid_amended_witness :
    (makeId "!!!" none = "" ∧
      nodeExists (Store.mk [mkTestNode "mcp-server" "parent"] [])
        "mcp-server" = true ∧
      ∀ n ∈ (Store.mk [mkTestNode "mcp-server" "parent"] []).nodes,
        n.id ≠ makeId "!!!" (some "mcp-server")) ∧
    makeId "!!!" (some "mcp-server") = "mcp-server/" ∧
    ∃ r, createConcept (fun _ => [1])
        ⟨[mkTestNode "mcp-server" "parent"], []⟩ "t1"
        { name := "!!!", kind := "feature", summary := "S",
          parent_id := some "mcp-server" } = .ok r ∧
      r.2 = "Created concept \"mcp-server/\"" ∧
      ∃ n ∈ r.1.nodes, n.id = makeId "!!!" (some "mcp-server") ∧
        n.name = "!!!" ∧ n.parent_id = some "mcp-server" :=
  ⟨⟨by decide, by decide, by decide⟩,
    (createConcept_emptyid_amended (fun _ => [1])
      ⟨[mkTestNode "mcp-server" "parent"], []⟩ "t1" "!!!" "feature" "S"
      (some "mcp-server") (by decide)
      (by intro p h; cases h; decide) (by decide)).1.trans (by decide),
    (createConcept_emptyid_amended (fun _ => [1])
      ⟨[mkTestNode "mcp-server" "parent"], []⟩ "t1" "!!!" "feature" "S"
      (some "mcp-server") (by decide)
      (by intro p h; cases h; decide) (by decide)).2⟩

/-- The store of claim C3's counterexample: one live node `a` with
name `N`, kind `feature`, summary `S` and a stored embedding `[0]`. -/
def kindOnlyStore : Store :=
  ⟨[{ mkTestNode "a" "S" with name := "N", embedding := some [0] }], []⟩

/-- C3 counterexample: `update_concept("a", {kind: "module"})` — `changes`
contains `kind` — succeeds and applies the new kind, but the stored
embedding stays `[0]`: it is **not** regenerated (the claimed post-patch
embedding would be `embedFn (embeddingText "N" "module" "S") = [1]`). -/
theorem updateConcept_kind_only_keeps_embedding :
    updateConcept (fun _ => [1]) kindOnlyStore "t1" "a"
      { kind := some "module" } =
    .ok (⟨[{ mkTestNode "a" "S" with
             name := "N"
             kind := "module"
             embedding := some [0]
             updated_at := "t1" }], []⟩,
         "Updated concept \"a\"") ∧
    (fun (_ : String) => ([1] : List ℚ)) (embeddingText "N" "module" "S") =
      [1] ∧
    some ([0] : List ℚ) ≠ some [1] := by
  decide

/-- C3 amended: `update_concept` regenerates the embedding exactly when
`changes` contains `name` or `summary` (a kind-only change does not
trigger it); when it does, the new embedding is computed from the
post-patch name, kind and summary. -/
theorem updateConcept_embedding_amended (embedFn : String → List ℚ)
    (st : Store) (now id : String) (changes : ConceptChanges) (ex : NodeRow)
    (hNodup : (st.nodes.map (fun n => n.id)).Nodup)
    (hex : getNode st id = some ex)
    (hch : (changes.summary.isSome || changes.name.isSome) = true) :
    ∃ r, updateConcept embedFn st now id changes = .ok r ∧
      r.2 = "Updated concept \"" ++ id ++ "\"" ∧
      ∀ n ∈ r.1.nodes, n.id = id →
        n.embedding = some (embedFn (embeddingText
          (changes.name.getD ex.name) (changes.kind.getD ex.kind)
          (changes.summary.getD ex.summary))) ∧
        n.name = changes.name.getD ex.name ∧
        n.kind = changes.kind.getD ex.kind ∧
        n.summary = changes.summary.getD ex.summary := by
  have hinj := List.inj_on_of_nodup_map hNodup
  have hmem : ex ∈ st.nodes := List.mem_of_find?_eq_some hex
  have hpred : (ex.id == id && ex.removed_at == none) = true :=
    List.find?_some
      (p := fun (n : NodeRow) => n.id == id && n.removed_at == none) hex
  have hexid : ex.id = id := beq_iff_eq.mp (Bool.and_elim_left hpred)
  have hexlive : ex.removed_at = none := by
    simpa using Bool.and_elim_right hpred
  have hhit : (st.nodes.any (fun n => n.id == id && n.removed_at == none))
      = true :=
    List.any_eq_true.mpr ⟨ex, hmem, hpred⟩
  have hemptycheck :
      ((changes.name == none && changes.kind == none &&
        changes.summary == none && changes.why == none &&
        changes.file_refs == none &&
        (some (embedFn (embeddingText (changes.name.getD ex.name)
          (changes.kind.getD ex.kind)
          (changes.summary.getD ex.summary))) == none)) = false) := by
    simp
  refine ⟨({ st with nodes := st.nodes.map (fun n =>
      if n.id == id && n.removed_at == none then
        applyPatch ⟨changes.name, changes.kind, changes.summary,
          changes.why, changes.file_refs,
          some (embedFn (embeddingText (changes.name.getD ex.name)
            (changes.kind.getD ex.kind)
            (changes.summary.getD ex.summary)))⟩ now n
      else n) }, "Updated concept \"" ++ id ++ "\""), ?_, rfl, ?_⟩
  · simp only [updateConcept, hex, hch, if_true, updateNode, hemptycheck,
      Bool.false_eq_true, if_false, hhit]
  · intro n hn hnid
    simp only [List.mem_map] at hn
    obtain ⟨m, hm, hfm⟩ := hn
    by_cases hc : (m.id == id && m.removed_at == none) = true
    · rw [if_pos hc] at hfm
      have hmid : m.id = id := beq_iff_eq.mp (Bool.and_elim_left hc)
      have hmex : m = ex := hinj hm hmem (by rw [hmid, hexid])
      subst hmex
      subst hfm
      exact ⟨rfl, rfl, rfl, rfl⟩
    · exfalso
      rw [if_neg hc] at hfm
      have hmid : m.id = id := by rw [hfm]; exact hnid
      have hmex : m = ex := hinj hm hmem (by rw [hmid, hexid])
      apply hc
      rw [hmex]
      simp [hexid, hexlive]

/-- Witness for C3's amended theorem: a name-only change on the concrete
store regenerates the embedding from the post-patch values. -/
theorem updateConcept_embedding_amended_witness :
    ((kindOnlyStore.nodes.map (fun n => n.id)).Nodup ∧
      getNode kindOnlyStore "a" =
        some { mkTestNode "a" "S" with name := "N", embedding := some [0] } ∧
      ((ConceptChanges.mk (some "N2") none none none none).summary.isSome ||
        (ConceptChanges.mk (some "N2") none none none none).name.isSome)
        = true) ∧
    ∃ r, updateConcept (fun _ => [7]) kindOnlyStore "t1" "a"
        { name := some "N2" } = .ok r ∧
      r.2 = "Updated concept \"a\"" ∧
      ∀ n ∈ r.1.nodes, n.id = "a" →
        n.embedding = some ((fun (_ : String) => ([7] : List ℚ))
          (embeddingText "N2" "feature" "S")) ∧
        n.name = "N2" ∧ n.kind = "feature" ∧ n.summary = "S" :=
  ⟨⟨by decide, by decide, by decide⟩, by
    have h := updateConcept_embedding_amended (fun _ => [7]) kindOnlyStore
      "t1" "a" { name := some "N2" }
      { mkTestNode "a" "S" with name := "N", embedding := some [0] }
      (by decide) (by decide) (by decide)
    simpa using h⟩

/-- C4: when the computed id already exists in the store — live (caught by
the explicit `nodeExists` check) or soft-deleted (caught by the primary-key
UNIQUE constraint inside `insertNode`) — `createConcept` fails with a
duplicate error and no node is inserted (the parent, when given, is assumed
valid so that the failure is attributable to the duplicate). -/
theorem createConcept_duplicate_fails (embedFn : String → List ℚ)
    (st : Store) (now : String) (input : CreateConceptInput)
    (hdup : ∃ n ∈ st.nodes, n.id = makeId input.name input.parent_id)
    (hpar : ∀ p, input.parent_id = some p → nodeExists st p = true) :
    ∃ msg, createConcept embedFn st now input = .error msg ∧
      (msg = "Concept \"" ++ makeId input.name input.parent_id ++
         "\" already exists. Use update_concept to modify it." ∨
       msg = "UNIQUE constraint failed: nodes.id") := by
  obtain ⟨n0, hmem0, hid0⟩ := hdup
  by_cases hlive : nodeExists st (makeId input.name input.parent_id) = true
  · refine ⟨_, ?_, Or.inl rfl⟩
    simp only [createConcept, hlive, if_true]
    rfl
  · have hlive' : nodeExists st (makeId input.name input.parent_id) = false :=
      Bool.not_eq_true _ ▸ hlive
    have hc2 : (match input.parent_id with
        | some p => !(nodeExists st p)
        | none => false) = false := by
      cases hip : input.parent_id with
      | none => rfl
      | some p => simp [hpar p hip]
    have hany : (st.nodes.any
        (fun n => n.id == makeId input.name input.parent_id)) = true :=
      List.any_eq_true.mpr ⟨n0, hmem0, by simp [hid0]⟩
    refine ⟨_, ?_, Or.inr rfl⟩
    simp only [createConcept, hlive', Bool.false_eq_true, if_false, hc2,
      insertNode, hany, if_true]
    rfl

/-- The store of C4's witness: the id `x` exists but is soft-deleted. -/
def removedDupStore : Store :=
  ⟨[{ mkTestNode "x" "old" with
      removed_at := some "t0"
      removed_reason := some "gone" }], []⟩

/-- Witness for C4 at a concrete store: creating `"X"` (slug `x`) over the
soft-deleted node `x` fails with the UNIQUE-constraint duplicate error. -/
theorem createConcept_duplicate_fails_witness :
    ((∃ n ∈ removedDupStore.nodes,
        n.id = makeId "X" none) ∧
      (∀ p, (none : Option String) = some p →
        nodeExists removedDupStore p = true)) ∧
    ∃ msg, createConcept (fun _ => [1]) removedDupStore "t1"
        { name := "X", kind := "feature", summary := "S" } = .error msg ∧
      (msg = "Concept \"" ++ makeId "X" none ++
         "\" already exists. Use update_concept to modify it." ∨
       msg = "UNIQUE constraint failed: nodes.id") :=
  ⟨⟨by decide, fun p h => Option.noConfusion h⟩,
    createConcept_duplicate_fails (fun _ => [1]) removedDupStore "t1"
      { name := "X", kind := "feature", summary := "S" }
      (by decide) (fun p h => Option.noConfusion h)⟩

/-- The store of claim C8's counterexample: a merge group `g` whose
`::left` variant is soft-deleted (a removed-vs-live conflict) and whose
`::right` variant is live. -/
def removedLeftGroupStore : Store :=
  ⟨[{ mkTestNode "feature-x::left" "L" with
      removed_at := some "tr"
      removed_reason := some "gone"
      merge_group := some "g"
      needs_merge := 1
      source_branch := some "left"
      merge_timestamp := some "tm" },
    { mkTestNode "feature-x::right" "R" with
      merge_group := some "g"
      needs_merge := 1
      source_branch := some "right"
      merge_timestamp := some "tm" }], []⟩

/-- C8 counterexample: on a group whose `::left` variant is soft-deleted,
`resolve --keep left` succeeds, the `::right` row is hard-deleted and the
`::left` row is renamed to the canonical id — but `get_node("feature-x")`
returns none (the renamed row is still removed), so the claim's
"get_node(canonical_id) returns the former ::left content" is false. -/
theorem resolveKeepLeft_removed_left_counterexample :
    (resolveGroup removedLeftGroupStore "t2" "g" .left).map (fun st' =>
      (getNode st' "feature-x",
       st'.nodes.map (fun n => (n.id, n.removed_at, n.summary)))) =
    .ok (none, [("feature-x", some "tr", "L")]) := by
  decide

/-- After `clearEdgeMergeFlagsByGroup g`, no edge belongs to group `g`. -/
theorem clearEdgeMergeFlagsByGroup_group_ne (st : Store) (g : String) :
    ∀ e ∈ (clearEdgeMergeFlagsByGroup st g).edges,
      e.merge_group ≠ some g := by
  intro e he
  simp only [clearEdgeMergeFlagsByGroup, List.mem_map] at he
  obtain ⟨e0, _, hfe⟩ := he
  by_cases hc : (e0.merge_group == some g) = true
  · rw [if_pos hc] at hfe
    subst hfe
    simp
  · rw [if_neg hc] at hfe
    subst hfe
    intro hgg
    exact hc (by simp [hgg])

/-- Model of `clearEdgeMergeFlagsByGroup g` clears all four merge fields of a group
edge, keeping its relation and description. -/
theorem clearEdgeMergeFlagsByGroup_clears (st : Store) (g : String)
    (e : EdgeRow) (he : e ∈ st.edges) (hg : e.merge_group = some g) :
    ∃ e' ∈ (clearEdgeMergeFlagsByGroup st g).edges,
      e'.relation = e.relation ∧ e'.description = e.description ∧
      e'.merge_group = none ∧ e'.needs_merge = 0 ∧
      e'.source_branch = none ∧ e'.merge_timestamp = none := by
  refine ⟨_, List.mem_map.mpr ⟨e, he, rfl⟩, ?_⟩
  rw [if_pos (by simp [hg])]
  exact ⟨rfl, rfl, rfl, rfl, rfl, rfl⟩

/-- An edge that is not incident to the hard-deleted node survives
`hardDeleteNode` unchanged. -/
theorem hardDeleteNode_edge_mem (st : Store) (id : String) (e : EdgeRow)
    (he : e ∈ st.edges) (hf : e.from_id ≠ id) (ht : e.to_id ≠ id) :
    e ∈ (hardDeleteNode st id).edges := by
  simp only [hardDeleteNode, deleteEdgesForNode, List.mem_filter]
  exact ⟨he, by simp [hf, ht]⟩

/-! ### String-suffix facts used by the resolve theorem -/

/-- A list is a prefix of itself extended to the right. -/
theorem isPrefixOf_append_self (l t : List Char) :
    List.isPrefixOf l (l ++ t) = true := by
  induction l with
  | nil => simp [List.isPrefixOf]
  | cons a as ih => simp [List.isPrefixOf, ih]

/-- A list is a suffix of itself extended to the left. -/
theorem isSuffixOf_append_self (xs ys : List Char) :
    List.isSuffixOf ys (xs ++ ys) = true := by
  simp only [List.isSuffixOf, List.reverse_append]
  exact isPrefixOf_append_self _ _

/-- Every id of the form `c ++ "::left"` ends with the left suffix. -/
theorem strEndsWith_left_suffix (c : String) :
    strEndsWith (c ++ MERGE_SUFFIX_LEFT) MERGE_SUFFIX_LEFT = true := by
  simp only [strEndsWith, MERGE_SUFFIX_LEFT, String.data_append]
  exact isSuffixOf_append_self _ _

/-- Every id of the form `c ++ "::right"` ends with the right suffix. -/
theorem strEndsWith_right_suffix (c : String) :
    strEndsWith (c ++ MERGE_SUFFIX_RIGHT) MERGE_SUFFIX_RIGHT = true := by
  simp only [strEndsWith, MERGE_SUFFIX_RIGHT, String.data_append]
  exact isSuffixOf_append_self _ _

/-- An id ending in `::right` never ends in `::left`: its last six
characters are `:right`. -/
theorem strEndsWith_right_not_left (c : String) :
    strEndsWith (c ++ MERGE_SUFFIX_RIGHT) MERGE_SUFFIX_LEFT = false := by
  simp only [strEndsWith, MERGE_SUFFIX_LEFT, MERGE_SUFFIX_RIGHT,
    String.data_append, List.isSuffixOf, List.reverse_append]
  have h1 : ("::left".data).reverse = ['t', 'f', 'e', 'l', ':', ':'] := by
    decide
  have h2 : ("::right".data).reverse =
      ['t', 'h', 'g', 'i', 'r', ':', ':'] := by decide
  rw [h1, h2]
  simp [List.isPrefixOf]

/-- An id ending in `::left` never ends in `::right`. -/
theorem strEndsWith_left_not_right (c : String) :
    strEndsWith (c ++ MERGE_SUFFIX_LEFT) MERGE_SUFFIX_RIGHT = false := by
  simp only [strEndsWith, MERGE_SUFFIX_LEFT, MERGE_SUFFIX_RIGHT,
    String.data_append, List.isSuffixOf, List.reverse_append]
  have h1 : ("::right".data).reverse =
      ['t', 'h', 'g', 'i', 'r', ':', ':'] := by decide
  have h2 : ("::left".data).reverse = ['t', 'f', 'e', 'l', ':', ':'] := by
    decide
  rw [h1, h2]
  simp [List.isPrefixOf]

/-- Stripping the left suffix recovers the canonical id. -/
theorem stripMergeSuffix_left (c : String) :
    stripMergeSuffix (c ++ MERGE_SUFFIX_LEFT) = c := by
  rw [stripMergeSuffix, if_pos (strEndsWith_left_suffix c)]
  simp only [strDropRight, MERGE_SUFFIX_LEFT, String.data_append]
  have h6 : "::left".length = 6 := by decide
  have hlen : (c.data ++ "::left".data).length - "::left".length =
      c.data.length := by
    simp [List.length_append, h6]
  rw [hlen, List.take_left]

/-- The two suffixed variants of one canonical id are distinct. -/
theorem left_ne_right_id (c : String) :
    c ++ MERGE_SUFFIX_LEFT ≠ c ++ MERGE_SUFFIX_RIGHT := by
  intro h
  have h2 := congrArg String.data h
  simp only [String.data_append] at h2
  have h3 := List.append_cancel_left h2
  exact absurd h3 (by decide)

/-- The canonical id differs from its right-suffixed variant. -/
theorem canon_ne_right (c : String) : c ≠ c ++ MERGE_SUFFIX_RIGHT := by
  intro h
  have h2 := congrArg (fun s => s.data.length) h
  simp [String.data_append, MERGE_SUFFIX_RIGHT] at h2

/-- The two rename maps of `renameNodeId` preserve an edge's relation,
description and merge group. -/
theorem renameEdge_maps_mem (oldId newId : String) (es : List EdgeRow)
    (e : EdgeRow) (he : e ∈ es) :
    ∃ e' ∈ (es.map (renameEdgeFrom oldId newId)).map
        (renameEdgeTo oldId newId),
      e'.relation = e.relation ∧ e'.description = e.description ∧
      e'.merge_group = e.merge_group := by
  refine ⟨_, List.mem_map.mpr ⟨_, List.mem_map.mpr ⟨e, he, rfl⟩, rfl⟩, ?_⟩
  unfold renameEdgeFrom renameEdgeTo
  by_cases h1 : (e.from_id == oldId) = true <;>
    by_cases h2 : (e.to_id == oldId) = true <;>
      simp [h1, h2]

/-- C8 amended: on any store whose merge group `g` consists of the live
variant `L` with id `c ++ "::left"` and the variant `R` with id
`c ++ "::right"`, and in which no row bears the canonical id `c` (otherwise
the rename's UNIQUE constraint fires and resolve fails), `resolve --keep
left` succeeds; afterwards no row has the `::right` id, `get_node(c)`
returns the former `::left` content with all four merge flags cleared, and
every surviving edge of group `g` has its merge flags cleared. -/
theorem resolveGroup_keepLeft_amended (st : Store) (L R : NodeRow)
    (now g c : String)
    (hNodup : (st.nodes.map (fun n => n.id)).Nodup)
    (hgroup : getNodesByMergeGroup st g = [L, R])
    (hLid : L.id = c ++ MERGE_SUFFIX_LEFT)
    (hRid : R.id = c ++ MERGE_SUFFIX_RIGHT)
    (hLlive : L.removed_at = none)
    (hNoCanon : ∀ n ∈ st.nodes, n.id ≠ c) :
    ∃ st', resolveGroup st now g .left = .ok st' ∧
      (∀ n ∈ st'.nodes, n.id ≠ c ++ MERGE_SUFFIX_RIGHT) ∧
      (∃ n, getNode st' c = some n ∧ n.name = L.name ∧ n.kind = L.kind ∧
        n.summary = L.summary ∧ n.why = L.why ∧ n.file_refs = L.file_refs ∧
        n.embedding = L.embedding ∧ n.removed_at = none ∧
        n.merge_group = none ∧ n.needs_merge = 0 ∧ n.source_branch = none ∧
        n.merge_timestamp = none) ∧
      (∀ e ∈ st'.edges, e.merge_group ≠ some g) ∧
      (∀ e ∈ st.edges, e.merge_group = some g →
        e.from_id ≠ c ++ MERGE_SUFFIX_RIGHT →
        e.to_id ≠ c ++ MERGE_SUFFIX_RIGHT →
        ∃ e' ∈ st'.edges, e'.relation = e.relation ∧
          e'.description = e.description ∧ e'.merge_group = none ∧
          e'.needs_merge = 0 ∧ e'.source_branch = none ∧
          e'.merge_timestamp = none) := by
  have hLmem : L ∈ st.nodes := by
    have h : L ∈ getNodesByMergeGroup st g := by rw [hgroup]; simp
    exact (List.mem_filter.mp h).1
  have hinj := List.inj_on_of_nodup_map hNodup
  have hLRne : L.id ≠ R.id := by
    rw [hLid, hRid]
    exact left_ne_right_id c
  have hfindL : List.find? (fun n => strEndsWith n.id MERGE_SUFFIX_LEFT)
      [L, R] = some L :=
    List.find?_cons_of_pos _ (by rw [hLid]; exact strEndsWith_left_suffix c)
  have hfindR : List.find? (fun n => strEndsWith n.id MERGE_SUFFIX_RIGHT)
      [L, R] = some R := by
    rw [List.find?_cons_of_neg _
      (by rw [hLid]; simp [strEndsWith_left_not_right c])]
    exact List.find?_cons_of_pos _
      (by rw [hRid]; exact strEndsWith_right_suffix c)
  have horig : stripMergeSuffix L.id = c := by
    rw [hLid]
    exact stripMergeSuffix_left c
  have hLst1 : L ∈ (hardDeleteNode st R.id).nodes := by
    simp only [hardDeleteNode, deleteEdgesForNode, List.mem_filter]
    exact ⟨hLmem, by simp [hLRne]⟩
  have hchanged : ((hardDeleteNode st R.id).nodes.any
      (fun n => n.id == L.id)) = true :=
    List.any_eq_true.mpr ⟨L, hLst1, by simp⟩
  have hst1sub : ∀ m ∈ (hardDeleteNode st R.id).nodes,
      m ∈ st.nodes ∧ m.id ≠ R.id := by
    intro m hm
    simp only [hardDeleteNode, deleteEdgesForNode, List.mem_filter] at hm
    refine ⟨hm.1, ?_⟩
    have h2 := hm.2
    simp only [Bool.not_eq_true'] at h2
    exact beq_eq_false_iff_ne.mp h2
  have hnocoll : ((hardDeleteNode st R.id).nodes.any
      (fun n => !(n.id == L.id) && n.id == c)) = false := by
    rw [List.any_eq_false]
    intro m hm
    have := hNoCanon m (hst1sub m hm).1
    simp [this]
  have hrename : renameNodeId (hardDeleteNode st R.id) now L.id c =
      .ok (true, Store.mk
        (((hardDeleteNode st R.id).nodes.map
            (renameNodeRow L.id c now)).map (renameParentRef L.id c))
        (((hardDeleteNode st R.id).edges.map
            (renameEdgeFrom L.id c)).map (renameEdgeTo L.id c))) := by
    simp [renameNodeId, hchanged, hnocoll]
  -- characterize the final node list
  have hnodeschar : ∀ n ∈ (((hardDeleteNode st R.id).nodes.map
        (renameNodeRow L.id c now)).map (renameParentRef L.id c)).map
        (fun m => if m.id == c then
          { m with merge_group := none, needs_merge := 0,
                   source_branch := none, merge_timestamp := none,
                   updated_at := now }
          else m),
      (n.id = c ∧ n.name = L.name ∧ n.kind = L.kind ∧
        n.summary = L.summary ∧ n.why = L.why ∧ n.file_refs = L.file_refs ∧
        n.embedding = L.embedding ∧ n.removed_at = none ∧
        n.merge_group = none ∧ n.needs_merge = 0 ∧ n.source_branch = none ∧
        n.merge_timestamp = none) ∨
      (n.id ≠ c ∧ n.id ≠ c ++ MERGE_SUFFIX_RIGHT) := by
    intro n hn
    obtain ⟨m2, hm2, hcl⟩ := List.mem_map.mp hn
    obtain ⟨m1, hm1, hpf⟩ := List.mem_map.mp hm2
    obtain ⟨m0, hm0, hrn⟩ := List.mem_map.mp hm1
    obtain ⟨hm0st, hm0ne⟩ := hst1sub m0 hm0
    by_cases hm0L : (m0.id == L.id) = true
    · left
      have hm0eq : m0 = L := hinj hm0st hLmem (beq_iff_eq.mp hm0L)
      subst hm0eq
      subst hrn
      subst hpf
      subst hcl
      by_cases hpc : (m0.parent_id == some m0.id) = true <;>
        simp [renameNodeRow, renameParentRef, hpc, hLlive]
    · right
      have hidrn : m1.id = m0.id := by
        rw [← hrn]
        simp [renameNodeRow, hm0L]
      have hidpf : m2.id = m1.id := by
        rw [← hpf]
        unfold renameParentRef
        by_cases hpc : (m1.parent_id == some L.id) = true <;> simp [hpc]
      have hidcl : n.id = m2.id := by
        rw [← hcl]
        by_cases hcc : (m2.id == c) = true <;> simp [hcc]
      rw [hidcl, hidpf, hidrn]
      refine ⟨hNoCanon m0 hm0st, ?_⟩
      rw [← hRid]
      exact hm0ne
  -- the image of L is in the final node list, with id c and live
  have hLimage : ∃ n ∈ (((hardDeleteNode st R.id).nodes.map
        (renameNodeRow L.id c now)).map (renameParentRef L.id c)).map
        (fun m => if m.id == c then
          { m with merge_group := none, needs_merge := 0,
                   source_branch := none, merge_timestamp := none,
                   updated_at := now }
          else m),
      n.id = c ∧ n.removed_at = none := by
    refine ⟨_, List.mem_map.mpr ⟨_, List.mem_map.mpr
      ⟨_, List.mem_map.mpr ⟨L, hLst1, rfl⟩, rfl⟩, rfl⟩, ?_⟩
    by_cases hpc : (L.parent_id == some L.id) = true <;>
      simp [renameNodeRow, renameParentRef, hpc, hLlive]
  refine ⟨clearEdgeMergeFlagsByGroup (clearNodeMergeFlags (Store.mk
      (((hardDeleteNode st R.id).nodes.map
          (renameNodeRow L.id c now)).map (renameParentRef L.id c))
      (((hardDeleteNode st R.id).edges.map
          (renameEdgeFrom L.id c)).map (renameEdgeTo L.id c)))
      now c) g, ?_, ?_, ?_, clearEdgeMergeFlagsByGroup_group_ne _ g, ?_⟩
  · simp only [resolveGroup, hgroup, hfindL, hfindR, Option.isNone_some,
      Bool.and_self, Bool.false_eq_true, if_false, horig, resolveKeepOne,
      hrename]
  · intro n hn
    have hn' : n ∈ (((hardDeleteNode st R.id).nodes.map
        (renameNodeRow L.id c now)).map (renameParentRef L.id c)).map
        (fun m => if m.id == c then
          { m with merge_group := none, needs_merge := 0,
                   source_branch := none, merge_timestamp := none,
                   updated_at := now }
          else m) := hn
    rcases hnodeschar n hn' with h | h
    · rw [h.1]
      exact canon_ne_right c
    · exact h.2
  · have hfootball : (getNode (clearEdgeMergeFlagsByGroup
        (clearNodeMergeFlags (Store.mk
          (((hardDeleteNode st R.id).nodes.map
              (renameNodeRow L.id c now)).map (renameParentRef L.id c))
          (((hardDeleteNode st R.id).edges.map
              (renameEdgeFrom L.id c)).map (renameEdgeTo L.id c)))
          now c) g) c).isSome = true := by
      rw [getNode]
      apply List.find?_isSome.mpr
      obtain ⟨n, hn, hid, hrem⟩ := hLimage
      exact ⟨n, hn, by simp [hid, hrem]⟩
    obtain ⟨a, ha⟩ := Option.isSome_iff_exists.mp hfootball
    have hamem := List.mem_of_find?_eq_some ha
    have hapred : (a.id == c && a.removed_at == none) = true :=
      List.find?_some
        (p := fun (x : NodeRow) => x.id == c && x.removed_at == none) ha
    have haid : a.id = c := beq_iff_eq.mp (Bool.and_elim_left hapred)
    rcases hnodeschar a hamem with h | h
    · exact ⟨a, ha, h.2.1, h.2.2.1, h.2.2.2.1, h.2.2.2.2.1,
        h.2.2.2.2.2.1, h.2.2.2.2.2.2.1, h.2.2.2.2.2.2.2.1,
        h.2.2.2.2.2.2.2.2.1, h.2.2.2.2.2.2.2.2.2.1,
        h.2.2.2.2.2.2.2.2.2.2.1, h.2.2.2.2.2.2.2.2.2.2.2⟩
    · exact absurd haid h.1
  · intro e he hgrp hf ht
    have he1 : e ∈ (hardDeleteNode st R.id).edges :=
      hardDeleteNode_edge_mem st R.id e he (by rw [hRid]; exact hf)
        (by rw [hRid]; exact ht)
    obtain ⟨e2, he2, hrel, hdesc, hmg⟩ :=
      renameEdge_maps_mem L.id c (hardDeleteNode st R.id).edges e he1
    obtain ⟨e3, he3, hrel3, hdesc3, hcl3⟩ :=
      clearEdgeMergeFlagsByGroup_clears (Store.mk
        (((hardDeleteNode st R.id).nodes.map
            (renameNodeRow L.id c now)).map (renameParentRef L.id c))
        (((hardDeleteNode st R.id).edges.map
            (renameEdgeFrom L.id c)).map (renameEdgeTo L.id c)))
        g e2 he2 (by rw [hmg, hgrp])
    exact ⟨e3, he3, hrel3.trans hrel, hdesc3.trans hdesc, hcl3⟩

/-- The live `::left` variant of C8's witness group. -/
def keepLeftWitnessL : NodeRow :=
  { mkTestNode "feature-x::left" "L" with
    merge_group := some "g"
    needs_merge := 1
    source_branch := some "left"
    merge_timestamp := some "tm" }

/-- The live `::right` variant of C8's witness group. -/
def keepLeftWitnessR : NodeRow :=
  { mkTestNode "feature-x::right" "R" with
    merge_group := some "g"
    needs_merge := 1
    source_branch := some "right"
    merge_timestamp := some "tm" }

/-- The store of C8's witness: a bystander node, the two live variants of
group `g`, and one conflicted edge out of the `::left` variant. -/
def keepLeftWitnessStore : Store :=
  ⟨[mkTestNode "other" "bystander", keepLeftWitnessL, keepLeftWitnessR],
   [⟨"feature-x::left", "other", "calls", none, none, some "g", 1,
     some "left", some "tm"⟩]⟩

/-- Witness for C8's amended theorem on a concrete store with a bystander
node and a conflicted edge. -/
theorem resolveGroup_keepLeft_amended_witness :
    ((keepLeftWitnessStore.nodes.map (fun n => n.id)).Nodup ∧
      getNodesByMergeGroup keepLeftWitnessStore "g" =
        [keepLeftWitnessL, keepLeftWitnessR] ∧
      keepLeftWitnessL.id = "feature-x" ++ MERGE_SUFFIX_LEFT ∧
      keepLeftWitnessR.id = "feature-x" ++ MERGE_SUFFIX_RIGHT ∧
      keepLeftWitnessL.removed_at = none ∧
      (∀ n ∈ keepLeftWitnessStore.nodes, n.id ≠ "feature-x")) ∧
    ∃ st', resolveGroup keepLeftWitnessStore "t2" "g" .left = .ok st' ∧
      (∀ n ∈ st'.nodes, n.id ≠ "feature-x" ++ MERGE_SUFFIX_RIGHT) ∧
      (∃ n, getNode st' "feature-x" = some n ∧
        n.name = keepLeftWitnessL.name ∧ n.kind = keepLeftWitnessL.kind ∧
        n.summary = keepLeftWitnessL.summary ∧
        n.why = keepLeftWitnessL.why ∧
        n.file_refs = keepLeftWitnessL.file_refs ∧
        n.embedding = keepLeftWitnessL.embedding ∧ n.removed_at = none ∧
        n.merge_group = none ∧ n.needs_merge = 0 ∧
        n.source_branch = none ∧ n.merge_timestamp = none) ∧
      (∀ e ∈ st'.edges, e.merge_group ≠ some "g") ∧
      (∀ e ∈ keepLeftWitnessStore.edges, e.merge_group = some "g" →
        e.from_id ≠ "feature-x" ++ MERGE_SUFFIX_RIGHT →
        e.to_id ≠ "feature-x" ++ MERGE_SUFFIX_RIGHT →
        ∃ e' ∈ st'.edges, e'.relation = e.relation ∧
          e'.description = e.description ∧ e'.merge_group = none ∧
          e'.needs_merge = 0 ∧ e'.source_branch = none ∧
          e'.merge_timestamp = none) :=
  ⟨⟨by decide, by decide, by decide, by decide, by decide, by decide⟩,
    resolveGroup_keepLeft_amended keepLeftWitnessStore keepLeftWitnessL
      keepLeftWitnessR "t2" "g" "feature-x" (by decide) (by decide)
      (by decide) (by decide) (by decide) (by decide)⟩

end MegaMemory
